import Mathlib

/-!
Verification development for the agentl2 chat streaming stack.

This file gives a shallow embedding of

* the HTTP edge proxy `src/ui/src/app/api/chat/route.ts`
  (`createAgentStream`, `flushBufferedEvent`, `POST`), and
* the browser chat client `src/ui/src/app/chat/page.tsx`
  (`createMockResponse`, `mapFinalResponseToAssistantMessage`,
  `normalizeAgentEvent`, `flushLine`, the stream-read loop of
  `handleAPICall`), together with the record types of
  `src/ui/src/lib/types.ts`,

and proves the behavioural properties stated in the repository
specification about them.

Modelling conventions:

* Parsed JSON documents and JavaScript runtime values are modelled by the
  inductive type `Json`.  `JSON.parse` itself (a full ECMAScript parser
  working on IEEE doubles) is kept abstract: every definition that calls
  it takes a `parse : String → Option Json` (respectively a re-serializer
  `reframe : String → Option String` standing for
  `s ↦ JSON.stringify(JSON.parse(s))`) as an explicit argument, `none`
  modelling a thrown `SyntaxError`.  No verified property below depends
  on the internals of the parser.
* JavaScript number-to-string rendering (`String(n)` on an IEEE double)
  is abstracted by printing the rational; no verified property depends
  on the rendering of numbers.
* JavaScript strings are modelled by Lean `String`; `split`, `trim` and
  `startsWith` are modelled character-exactly below.
-/

namespace AgentL2

/-- Model of a parsed JSON document / JavaScript runtime value.
Objects are association lists with pairwise-distinct keys (the shape
`JSON.parse` produces); numbers are kept as rationals since the client
code only tests `typeof x === 'number'` and copies numbers through. -/
inductive Json where
  | null : Json
  | bool (b : Bool) : Json
  | num (q : ℚ) : Json
  | str (s : String) : Json
  | arr (elems : List Json) : Json
  | obj (fields : List (String × Json)) : Json

/-- JavaScript property access `j.k` on a parsed value: field lookup on an
object, `undefined` (`none`) on anything else.  (Access on `null` throws in
JavaScript; every call site below either guards the receiver or sits under
a `try`/`catch` whose net effect coincides with `none`.) -/
def Json.get : Json → String → Option Json
  | .obj fields, k => fields.lookup k
  | _, _ => none

/-- The JavaScript nullish-coalescing operator `x ?? d`: `d` exactly when
`x` is `undefined` (`none`) or `null`. -/
def jsNullish (x : Option Json) (d : Json) : Json :=
  match x with
  | none => d
  | some .null => d
  | some v => v

/-- Abstraction of ECMAScript double formatting (see file header). -/
def ratToDisplay (q : ℚ) : String :=
  if q.den = 1 then toString q.num else toString q.num ++ "/" ++ toString q.den

mutual

/-- The JavaScript `String(x)` conversion on parsed values. -/
def jsString : Json → String
  | .null => "null"
  | .bool b => if b then "true" else "false"
  | .num q => ratToDisplay q
  | .str s => s
  | .arr xs => String.intercalate "," (jsStringElems xs)
  | .obj _ => "[object Object]"

/-- `Array.prototype.toString` renders `null` elements as the empty string
and joins with commas. -/
def jsStringElems : List Json → List String
  | [] => []
  | .null :: rest => "" :: jsStringElems rest
  | j :: rest => jsString j :: jsStringElems rest

end

/-- `Array.isArray(x) ? x : []` on a possibly-missing value. -/
def arrayOrNil (x : Option Json) : List Json :=
  match x with
  | some (.arr xs) => xs
  | _ => []

/-- `typeof x === 'number' ? x : undefined` on a possibly-missing value. -/
def numOrNone (x : Option Json) : Option ℚ :=
  match x with
  | some (.num q) => some q
  | _ => none

/-- `typeof x === 'string' ? x : undefined` on a possibly-missing value. -/
def strOrNone (x : Option Json) : Option String :=
  match x with
  | some (.str s) => some s
  | _ => none

/-! ### Character-exact models of the string primitives used by the code -/

/-- Greedy leftmost split of a character list at a (non-empty) separator,
the semantics of JavaScript `String.prototype.split`: scanning left to
right, each occurrence of the separator ends the current segment and the
scan resumes after it.  Always returns at least one segment. -/
def splitSep (sep : List Char) : List Char → List (List Char)
  | [] => [[]]
  | x :: xs =>
    if h : sep ≠ [] ∧ sep.isPrefixOf (x :: xs) then
      [] :: splitSep sep ((x :: xs).drop sep.length)
    else
      match splitSep sep xs with
      | [] => [[x]]
      | s :: ss => (x :: s) :: ss
termination_by l => l.length
decreasing_by
  · have hpos : 0 < sep.length := List.length_pos.mpr h.1
    simp only [List.length_drop, List.length_cons]
    omega
  · simp [Nat.lt_succ_self]

/-- JavaScript `s.split(sep)` for a non-empty separator string. -/
def jsSplit (sep s : String) : List String :=
  (splitSep sep.toList s.toList).map String.mk

/-- Characters removed by JavaScript `String.prototype.trim`. -/
def jsWhite (c : Char) : Bool := c.isWhitespace

/-- Strip leading and trailing whitespace from a character list. -/
def trimChars (cs : List Char) : List Char :=
  ((cs.dropWhile jsWhite).reverse.dropWhile jsWhite).reverse

/-- JavaScript `s.trim()`. -/
def jsTrim (s : String) : String := String.mk (trimChars s.toList)

/-! ### `src/ui/src/lib/types.ts` -/

/-- `Citation` of `types.ts`; `confidence` is an optional field. -/
structure Citation where
  source_name : String
  description : String
  link : String
  confidence : Option ℚ := none

/-- `AgentEvent` of `types.ts`.  The payload is an arbitrary structured
value at runtime (`AgentEventPayload` is an open record). -/
structure AgentEvent where
  type : String
  agent : String
  payload : Json
  timestamp : Option String := none

/-- `AssistantMessage` of `types.ts`.  `relatedKeywords` is declared
`string[]` but is populated by an unchecked cast from parsed JSON, so its
elements are modelled as raw `Json` values. -/
structure AssistantMessage where
  summary : String
  citations : List Citation
  followUps : List String
  confidence : Option ℚ := none
  processingTime : Option ℚ := none
  relatedKeywords : Option (List Json) := none
  agentTrail : Option (List AgentEvent) := none

/-- The `content` of a `Message`: `string | AssistantMessage`. -/
inductive MessageContent where
  | text (s : String)
  | answer (a : AssistantMessage)

/-- `Message` of `types.ts`. -/
structure Message where
  id : String
  role : String
  content : MessageContent

/-! ### The chat client, `src/ui/src/app/chat` page (`ChatPageContent`) -/

/-- `createMockResponse` of the chat page: the locally-constructed
degraded response used when the request or the stream read throws. -/
def createMockResponse (query : String) : AssistantMessage :=
  { summary := "\x27" ++ query ++
      "\x27에 대한 정식 답변을 생성하는 중 문제가 발생했습니다. 이 예시는 서비스 복구 전까지 임시로 제공되는 기본 응답입니다.",
    citations := [
      { 
        source_name := "개인정보보호법 제5조",
        description := "개인정보 보호 기본 원칙을 규정한 조문입니다.",
        link := "https://www.law.go.kr/LSW/lsInfoP.do?lsId=008032" }],
    followUps := [
      "조금 더 구체적인 사실관계를 알려주실 수 있나요?",
      "관련된 판례나 사건 번호를 알고 계시면 함께 알려주세요."],
    confidence := some 0,
    agentTrail := some [] }

/-- The arrow function applied to each element of `sources` inside
`mapFinalResponseToAssistantMessage` (chat page, lines 42–47). -/
def mapSourceToCitation (source : Json) : Citation :=
  { source_name := jsString (jsNullish (source.get "source_name")
      (jsNullish (source.get "title") (.str "출처 미상"))),
    description := jsString (jsNullish (source.get "description")
      (jsNullish (source.get "excerpt") (.str ""))),
    link := jsString (jsNullish (source.get "link")
      (jsNullish (source.get "url") (.str "#"))),
    confidence := numOrNone (source.get "confidence") }

/-- `mapFinalResponseToAssistantMessage` of the chat page. -/
def mapFinalResponseToAssistantMessage (finalResponse : Json)
    (agentTrail : List AgentEvent) : AssistantMessage :=
  let sources := arrayOrNil (finalResponse.get "sources")
  let followUps := arrayOrNil (finalResponse.get "followUps")
  let relatedKeywords :=
    match finalResponse.get "related_keywords" with
    | some (.arr xs) => some xs
    | _ => none
  { 
    summary := jsString (jsNullish (finalResponse.get "answer") (.str "")),
    citations := sources.map mapSourceToCitation,
    followUps := followUps.map jsString,
    confidence := numOrNone (finalResponse.get "confidence"),
    processingTime := numOrNone (finalResponse.get "processing_time"),
    relatedKeywords := relatedKeywords,
    agentTrail := some agentTrail }

/-- `normalizeAgentEvent` of the chat page. -/
def normalizeAgentEvent (event : Json) : AgentEvent :=
  let payload := jsNullish (event.get "payload") (Json.obj [])
  { 
    type := jsString (jsNullish (event.get "type") (.str "agent_step")),
    agent := jsString (jsNullish (event.get "agent") (.str "unknown")),
    payload := payload,
    timestamp := strOrNone (payload.get "timestamp") }

/-- The mutable state manipulated by `handleAPICall`'s stream loop:
the `messages` React state, the `currentAgentTrail` React state, and the
local variables `partialAnswer`, `localTrail`, `streamCompleted`. -/
structure ChatStreamState where
  messages : List Message
  currentAgentTrail : List AgentEvent
  partialAnswer : String
  localTrail : List AgentEvent
  streamCompleted : Bool

/-- `setMessages((prev) => prev.map((msg) => msg.id === id ? with new
content : msg))`, the update pattern used throughout the chat page. -/
def setMessageContent (messages : List Message) (id : String)
    (c : MessageContent) : List Message :=
  messages.map fun m => if m.id = id then { m with content := c } else m

/-- The default message of the client `error` branch. -/
def clientErrorFallbackMsg : String := "Agent 파이프라인 처리 중 오류가 발생했습니다."

/-- `flushLine` of the chat page (lines 162–221): consume one
newline-delimited line of the proxied stream.  `parse` models
`JSON.parse` (`none` = thrown `SyntaxError`, which the surrounding
`try`/`catch` turns into a no-op).  A parsed value on which property
access throws (`null`) likewise leaves the state unchanged via the same
`catch`, which coincides with the fall-through below. -/
def flushLine (parse : String → Option Json) (assistantMessageId : String)
    (st : ChatStreamState) (line : String) : ChatStreamState :=
  if jsTrim line = "" ∨ st.streamCompleted then st
  else
    match parse line with
    | none => st
    | some parsed =>
      match parsed.get "type" with
      | some (.str t) =>
        if t = "agent_step" ∨ t = "pipeline" then
          let localTrail := st.localTrail ++ [normalizeAgentEvent parsed]
          { st with localTrail := localTrail, currentAgentTrail := localTrail }
        else if t = "content" then
          match parsed.get "content" with
          | some (.str c) =>
            let partialAnswer := st.partialAnswer ++ c
            { st with
              partialAnswer := partialAnswer,
              messages := setMessageContent st.messages assistantMessageId
                (.text partialAnswer) }
          | _ => st
        else if t = "complete" then
          let finalResponse := jsNullish (parsed.get "final_response") (Json.obj [])
          { st with
            messages := setMessageContent st.messages assistantMessageId
              (.answer (mapFinalResponseToAssistantMessage finalResponse st.localTrail)),
            currentAgentTrail := [],
            streamCompleted := true }
        else if t = "error" then
          let errorMessage := jsString (jsNullish (parsed.get "error")
            (.str clientErrorFallbackMsg))
          { st with
            messages := setMessageContent st.messages assistantMessageId
              (.text errorMessage),
            currentAgentTrail := [],
            streamCompleted := true }
        else st
      | _ => st

/-- The `while (!streamCompleted)` read loop of `handleAPICall`
(lines 223–236): each decoded chunk is appended to the line buffer, the
buffer is split at newlines, every complete line is flushed, and the
trailing fragment becomes the new buffer.  Returns the state and the
unconsumed buffer; stops reading as soon as `streamCompleted` holds. -/
def readStreamLoop (parse : String → Option Json) (assistantMessageId : String) :
    ChatStreamState → String → List String → ChatStreamState × String
  | st, buffer, [] => (st, buffer)
  | st, buffer, chunk :: rest =>
    if st.streamCompleted then (st, buffer)
    else
      let parts := jsSplit "\n" (buffer ++ chunk)
      let newBuffer := parts.getLast?.getD ""
      let lines := parts.dropLast
      readStreamLoop parse assistantMessageId
        (lines.foldl (flushLine parse assistantMessageId) st) newBuffer rest

/-- The whole stream consumption of `handleAPICall` (lines 223–240): the
read loop followed by the flush of a non-empty trailing buffer. -/
def runStreamRead (parse : String → Option Json) (assistantMessageId : String)
    (st : ChatStreamState) (chunks : List String) : ChatStreamState :=
  let res := readStreamLoop parse assistantMessageId st "" chunks
  if ¬ res.1.streamCompleted ∧ jsTrim res.2 ≠ "" then
    flushLine parse assistantMessageId res.1 res.2
  else res.1

/-- How far `handleAPICall`'s `try` block got before throwing (if at
all).  `fetchFailed` covers `fetch` rejecting, `!response.ok` and
`!response.body` — everything before the assistant placeholder message
is appended; `streamFailed` covers `reader.read()` rejecting after the
listed chunks were delivered. -/
inductive ClientFetchOutcome where
  | fetchFailed
  | streamFailed (chunksRead : List String)
  | streamEnded (chunks : List String)

/-- The client state `handleAPICall` leaves behind. -/
structure ClientResult where
  messages : List Message
  currentAgentTrail : List AgentEvent
  isLoading : Bool

/-- `handleAPICall` of the chat page (lines 117–267), starting from
`messages = history` (set by the caller): on success the stream is
consumed; on a throw the `catch` block appends (no placeholder yet) or
replaces (placeholder present) the assistant message with
`createMockResponse`; the `finally` block always clears `isLoading` and
`currentAgentTrail`. -/
def handleAPICall (parse : String → Option Json) (queryText : String)
    (history : List Message) (assistantMessageId fallbackId : String)
    (outcome : ClientFetchOutcome) : ClientResult :=
  match outcome with
  | .fetchFailed =>
    { messages := history ++
        [⟨fallbackId, "assistant", .answer (createMockResponse queryText)⟩],
      currentAgentTrail := [],
      isLoading := false }
  | .streamFailed chunksRead =>
    let st0 : ChatStreamState :=
      ⟨history ++ [⟨assistantMessageId, "assistant", .text ""⟩], [], "", [], false⟩
    let st1 := (readStreamLoop parse assistantMessageId st0 "" chunksRead).1
    { messages := setMessageContent st1.messages assistantMessageId
        (.answer (createMockResponse queryText)),
      currentAgentTrail := [],
      isLoading := false }
  | .streamEnded chunks =>
    let st0 : ChatStreamState :=
      ⟨history ++ [⟨assistantMessageId, "assistant", .text ""⟩], [], "", [], false⟩
    let st1 := runStreamRead parse assistantMessageId st0 chunks
    { 
      messages := st1.messages,
      currentAgentTrail := [],
      isLoading := false }

/-! ### The edge proxy, `src/ui/src/app/api/chat/route.ts` -/

/-- One item enqueued on the proxy's downstream `ReadableStream`.  Every
item is a newline-terminated JSON text: `event s` is
`JSON.stringify(JSON.parse(payload)) + '\n'` for a forwarded upstream
event whose re-serialized text is `s`; `errorEvent msg` is the injected
`JSON.stringify({ type: 'error', error: msg }) + '\n'`, a well-formed
newline-delimited `error` event carrying the message `msg`. -/
inductive ProxyChunk where
  | event (json : String)
  | errorEvent (message : String)

/-- Whether a downstream item is an injected `error` event. -/
def ProxyChunk.isError : ProxyChunk → Bool
  | .errorEvent _ => true
  | .event _ => false

/-- `flushBufferedEvent` of `route.ts` (lines 27–48): split one
blank-line-separated SSE segment into lines, keep the trimmed
`data: `-lines, join their payloads, and forward the re-serialization;
nothing is enqueued for a segment with no `data: ` line, an empty joined
payload, or an unparsable payload. -/
def flushBufferedEvent (reframe : String → Option String) (chunk : String) :
    List ProxyChunk :=
  let dataLines := ((jsSplit "\n" chunk).map jsTrim).filter
    (fun l => l.startsWith "data: ")
  if dataLines = [] then []
  else
    let payload := String.intercalate "\n" (dataLines.map (fun l => l.drop 6))
    if payload = "" then []
    else
      match reframe payload with
      | some out => [.event out]
      | none => []

/-- The `while (true)` read loop of `createAgentStream` (lines 49–64):
append each chunk to the buffer, split at blank lines, flush every
complete segment, keep the trailing fragment buffered.  Returns the
emitted items and the final buffer. -/
def processUpstreamChunks (reframe : String → Option String) :
    String → List String → List ProxyChunk × String
  | buffer, [] => ([], buffer)
  | buffer, c :: rest =>
    let segs := jsSplit "\n\n" (buffer ++ c)
    let newBuffer := segs.getLast?.getD ""
    let events := segs.dropLast.flatMap (flushBufferedEvent reframe)
    let res := processUpstreamChunks reframe newBuffer rest
    (events ++ res.1, res.2)

/-- Error message when the upstream response has no readable body. -/
def noStreamErrorMsg : String := "LLM 서비스로부터 스트림을 열 수 없습니다."

/-- Error message when reading the upstream stream throws. -/
def streamErrorMsg : String := "스트림 처리 중 오류가 발생했습니다."

/-- What the proxy's generated stream produced: the enqueued items and
whether `controller.close()` was reached. -/
structure StreamOutput where
  items : List ProxyChunk
  closed : Bool

/-- `createAgentStream` of `route.ts` (lines 8–81).  The upstream body is
`none` when `response.body` is absent, otherwise the chunk list actually
delivered plus a flag telling whether the next `reader.read()` would
throw (`try`/`catch` injects one error event in that case, skipping the
trailing-buffer flush); the `finally` block always closes. -/
def createAgentStream (reframe : String → Option String)
    (body : Option (List String × Bool)) : StreamOutput :=
  match body with
  | none => ⟨[.errorEvent noStreamErrorMsg], true⟩
  | some (chunks, readFails) =>
    let res := processUpstreamChunks reframe "" chunks
    if readFails then ⟨res.1 ++ [.errorEvent streamErrorMsg], true⟩
    else if jsTrim res.2 ≠ "" then ⟨res.1 ++ flushBufferedEvent reframe res.2, true⟩
    else ⟨res.1, true⟩

/-- How far the `POST` handler's `try` block got: `unreachable` models
`fetch` (or the request-body parse) rejecting with `String(error) =
errString`; otherwise the upstream response with its `ok` flag, status
line and body. -/
inductive FetchOutcome where
  | unreachable (errString : String)
  | response (ok : Bool) (status : Nat) (statusText : String)
      (body : Option (List String × Bool))

/-- The HTTP response `POST` returns: status code and the stream. -/
structure PostResult where
  status : Nat
  stream : StreamOutput

/-- The fallback error text of `POST`'s `catch` block:
`Agent 파이프라인 처리 중 오류가 발생했습니다: ${String(error)}`. -/
def postErrorMsg (errString : String) : String :=
  "Agent 파이프라인 처리 중 오류가 발생했습니다: " ++ errString

/-- `String(error)` for the `Error` thrown on a non-OK upstream status:
`new Error(...)` stringifies as `Error: ` followed by its message. -/
def statusErrString (status : Nat) (statusText : String) : String :=
  "Error: LLM service error: " ++ toString status ++ " " ++ statusText

/-- `POST` of `route.ts` (lines 83–137): forward the request upstream; a
non-OK upstream status throws into the `catch` block, which (like a
rejected `fetch`) responds 500 with a single-error-event fallback
stream; otherwise respond 200 with `createAgentStream`. -/
def POST (reframe : String → Option String) (outcome : FetchOutcome) : PostResult :=
  match outcome with
  | .unreachable errString =>
    ⟨500, ⟨[.errorEvent (postErrorMsg errString)], true⟩⟩
  | .response ok status statusText body =>
    if ok then ⟨200, createAgentStream reframe body⟩
    else ⟨500, ⟨[.errorEvent (postErrorMsg (statusErrString status statusText))], true⟩⟩

/-! ### Specification-side description of the proxy re-framing (§6),
for the refinement claim -/

/-- The specification's per-event description, written from its words:
for one blank-line-separated SSE event, the concatenation (newline-joined,
per the SSE data-field convention) of its `data: ` line payloads, parsed
as JSON and re-serialized; an event with no `data: ` line, an empty
payload, or an unparsable payload contributes no downstream event. -/
def specSegmentEvent (reframe : String → Option String) (segment : String) :
    Option String :=
  let payloads := (((jsSplit "\n" segment).map jsTrim).filter
    (fun l => l.startsWith "data: ")).map (fun l => l.drop 6)
  if payloads = [] then none
  else
    let payload := String.intercalate "\n" payloads
    if payload = "" then none else reframe payload

/-- The specification's description of the whole downstream stream: the
re-serializations of the blank-line-separated SSE events of the upstream
response, in upstream order. -/
def specReframedStream (reframe : String → Option String) (upstream : String) :
    List String :=
  (jsSplit "\n\n" upstream).filterMap (specSegmentEvent reframe)

/-! ### Spec-modelled pipeline orchestrator (§4.1)

The Python agent-pipeline implementation (the orchestrator behind the
`/chat/stream` service) is not among the provided sources — only its
test summary and callers are.  The definitions of this section are
modelled from the specification's §4.1 contract. -/

/-- Modelled from the spec: an `AgentEvent` as emitted by the Pipeline
Orchestrator (§3), tagged with the stage name where one applies.  The
orchestrator `enhanced_agent_pipeline` implementation is missing from
the sources. -/
inductive OrchEvent where
  | stage_started (agent : String)
  | stage_completed (agent : String)
  | contentChunk (agent : String) (text : String)
  | errorDiag (agent : String) (message : String)
  | complete

/-- The stage name an orchestrator event is attributed to. -/
def OrchEvent.agentName : OrchEvent → Option String
  | .stage_started a => some a
  | .stage_completed a => some a
  | .contentChunk a _ => some a
  | .errorDiag a _ => some a
  | .complete => none

/-- Modelled from the spec: `FinalAnswer` (§3). -/
structure FinalAnswer where
  summary : String
  citations : List Citation
  followUps : List String
  confidence : ℚ
  processingTimeMs : ℚ
  relatedKeywords : List String
  agentTrail : List OrchEvent

/-- Modelled from the spec: the Facilitator fields of `StageResult`
(§3) that drive the clarification short-circuit. -/
structure FacilitatorResult where
  needsClarification : Bool
  clarificationQuestion : String

/-- The fixed stage sequence of §4.1. -/
def pipelineStages : List String :=
  ["Facilitator", "Search", "Analyst", "Response", "Citation", "Validator"]

/-- Modelled from the spec: the events one successfully executed stage
contributes to the trail (§4.1 steps 1 and 4). -/
def stageEvents (stage : String) : List OrchEvent :=
  [.stage_started stage, .stage_completed stage]

/-- Modelled from the spec (§4.1): one orchestrator turn, reduced to the
control flow the clarification short-circuit decides.  `fullAnswer`
stands for the FinalAnswer assembled from the six stage results on the
non-clarification path.  If the Facilitator reports
`needsClarification`, the remaining stages are skipped, `complete` is
emitted immediately after the Facilitator's own events with a
FinalAnswer carrying the clarification question and empty
citations/followUps, and `turnCount` is not advanced; otherwise all six
stages run and `turnCount` advances by one. -/
def runTurn (fac : FacilitatorResult) (fullAnswer : FinalAnswer)
    (turnCount : Nat) : List OrchEvent × FinalAnswer × Nat :=
  if fac.needsClarification then
    (stageEvents "Facilitator" ++ [.complete],
     ({ summary := fac.clarificationQuestion
        citations := []
        followUps := []
        confidence := 0
        processingTimeMs := 0
        relatedKeywords := []
        agentTrail := stageEvents "Facilitator" }, turnCount))
  else
    (pipelineStages.flatMap stageEvents ++ [.complete], (fullAnswer, turnCount + 1))

/-! ## Helper lemmas -/

/-- `flushBufferedEvent` forwards upstream events only; it never
fabricates an `error` event. -/
theorem flushBufferedEvent_no_error (reframe : String → Option String)
    (chunk : String) :
    (flushBufferedEvent reframe chunk).filter ProxyChunk.isError = [] := by
  unfold flushBufferedEvent
  dsimp only
  split
  · rfl
  · split
    · rfl
    · split
      · simp [ProxyChunk.isError]
      · rfl

/-- The upstream read loop of the proxy forwards upstream events only. -/
theorem processUpstreamChunks_no_error (reframe : String → Option String)
    (chunks : List String) (buffer : String) :
    (processUpstreamChunks reframe buffer chunks).1.filter ProxyChunk.isError = [] := by
  induction chunks generalizing buffer with
  | nil => rfl
  | cons c rest ih =>
    simp only [processUpstreamChunks, List.filter_append, ih]
    rw [List.append_nil]
    generalize (jsSplit "\n\n" (buffer ++ c)).dropLast = segs
    induction segs with
    | nil => rfl
    | cons s ss ihs =>
      simp [List.filter_append, ihs, flushBufferedEvent_no_error]

/-! ## C1 -/

/-- C1: For every POST request to the chat proxy endpoint in one of the
three failure modes — the pipeline service unreachable, a non-OK
upstream status, or an upstream response with no readable body — the
caller receives exactly one newline-delimited `error` event carrying a
human-readable message, the stream is then closed, and no unhandled
exception escapes (every path yields a well-formed closed stream). -/
theorem post_failure_modes_single_error_event
    (reframe : String → Option String) (errString statusText : String)
    (status : Nat) (body : Option (List String × Bool)) :
    (POST reframe (.unreachable errString)).stream.items
        = [.errorEvent (postErrorMsg errString)] ∧
    (POST reframe (.unreachable errString)).stream.closed = true ∧
    (POST reframe (.response false status statusText body)).stream.items
        = [.errorEvent (postErrorMsg (statusErrString status statusText))] ∧
    (POST reframe (.response false status statusText body)).stream.closed = true ∧
    (POST reframe (.response true status statusText none)).stream.items
        = [.errorEvent noStreamErrorMsg] ∧
    (POST reframe (.response true status statusText none)).stream.closed = true ∧
    ∀ outcome, (POST reframe outcome).stream.closed = true := by
  refine ⟨rfl, rfl, rfl, rfl, rfl, rfl, ?_⟩
  intro outcome
  match outcome with
  | .unreachable e => rfl
  | .response ok status statusText body =>
    cases ok
    · rfl
    · show (createAgentStream reframe body).closed = true
      match body with
      | none => rfl
      | some (chunks, readFails) =>
        unfold createAgentStream
        cases readFails
        · simp only [Bool.false_eq_true, if_false]
          split <;> rfl
        · rfl

/-! ## C10 -/

/-- C10: On every execution path of the proxy's stream generator —
upstream body absent, upstream read throwing mid-stream, or normal
completion — the controller is closed after at most one injected
`error` event, so the downstream reader always observes end-of-stream. -/
theorem stream_generator_closes_with_at_most_one_error
    (reframe : String → Option String) (body : Option (List String × Bool)) :
    (createAgentStream reframe body).closed = true ∧
    ((createAgentStream reframe body).items.filter ProxyChunk.isError).length ≤ 1 := by
  unfold createAgentStream
  match body with
  | none => exact ⟨rfl, by simp [ProxyChunk.isError]⟩
  | some (chunks, readFails) =>
    cases readFails
    · simp only [Bool.false_eq_true, if_false]
      constructor
      · split <;> rfl
      · split
        · simp [List.filter_append, processUpstreamChunks_no_error,
            flushBufferedEvent_no_error]
        · simp [processUpstreamChunks_no_error]
    · refine ⟨rfl, ?_⟩
      simp [List.filter_append, processUpstreamChunks_no_error, ProxyChunk.isError]

/-! ## C2 -/

/-- A demo client state whose turn has already seen its terminal event. -/
def doneState : ChatStreamState := ⟨[], [], "", [], true⟩

/-- A demo client state in the middle of a live turn. -/
def liveState : ChatStreamState :=
  ⟨[⟨"a1", "assistant", .text ""⟩], [], "", [], false⟩

/-- C2: After the first `complete` or `error` event of a turn has been
handled (`streamCompleted` set), no further event of the turn is
processed or delivered: any later line leaves the message list, the
agent trail and all other state unchanged, and the read loop consumes
no further chunk — the stream is terminated. -/
theorem no_event_processed_after_terminal (parse : String → Option Json)
    (aid : String) (st : ChatStreamState) (h : st.streamCompleted = true) :
    (∀ line, flushLine parse aid st line = st) ∧
    (∀ buffer chunks, readStreamLoop parse aid st buffer chunks = (st, buffer)) := by
  constructor
  · intro line
    unfold flushLine
    simp [h]
  · intro buffer chunks
    cases chunks <;> simp [readStreamLoop, h]

/-- Witness for C2 at a concrete completed state, line and chunk list. -/
theorem no_event_processed_after_terminal_witness :
    doneState.streamCompleted = true ∧
    flushLine (fun _ => none) "a1" doneState "x" = doneState ∧
    readStreamLoop (fun _ => none) "a1" doneState "" ["y"] = (doneState, "") :=
  ⟨rfl,
   (no_event_processed_after_terminal (fun _ => none) "a1" doneState rfl).1 "x",
   (no_event_processed_after_terminal (fun _ => none) "a1" doneState rfl).2 "" ["y"]⟩

/-! ## C8 -/

/-- C8: A received line that does not parse as JSON leaves the whole
conversation state unchanged — messages, partial answer, agent trail
and completion flag — and processing continues with the subsequent
lines; a malformed line never aborts the turn. -/
theorem malformed_line_leaves_state_unchanged (parse : String → Option Json)
    (aid : String) (st : ChatStreamState) (line : String)
    (h : parse line = none) :
    flushLine parse aid st line = st ∧
    ∀ rest, (line :: rest).foldl (flushLine parse aid) st
        = rest.foldl (flushLine parse aid) st := by
  have hf : flushLine parse aid st line = st := by
    unfold flushLine
    split
    · rfl
    · simp [h]
  exact ⟨hf, fun rest => by simp [List.foldl_cons, hf]⟩

/-- Witness for C8 at a concrete live state and unparsable line. -/
theorem malformed_line_leaves_state_unchanged_witness :
    flushLine (fun _ => none) "a1" liveState "oops" = liveState ∧
    ["oops", "x"].foldl (flushLine (fun _ => none) "a1") liveState
      = ["x"].foldl (flushLine (fun _ => none) "a1") liveState :=
  ⟨(malformed_line_leaves_state_unchanged (fun _ => none) "a1" liveState "oops" rfl).1,
   (malformed_line_leaves_state_unchanged (fun _ => none) "a1" liveState "oops" rfl).2 ["x"]⟩

/-! ## C7 -/

/-- C7 (spec-modelled): When the Facilitator returns
`needsClarification=true`, the orchestrator emits only Facilitator
events followed immediately by the terminal `complete` — no Search,
Analyst, Response, Citation or Validator event — the FinalAnswer's
summary is the clarification question with empty citations and
followUps, and the conversation's turnCount is not incremented. -/
theorem clarification_short_circuits_turn (fac : FacilitatorResult)
    (fullAnswer : FinalAnswer) (tc : Nat)
    (h : fac.needsClarification = true) :
    (runTurn fac fullAnswer tc).1
        = [.stage_started "Facilitator", .stage_completed "Facilitator", .complete] ∧
    (∀ e ∈ (runTurn fac fullAnswer tc).1,
        e.agentName = some "Facilitator" ∨ e = .complete) ∧
    (runTurn fac fullAnswer tc).1.getLast? = some .complete ∧
    (runTurn fac fullAnswer tc).2.1.summary = fac.clarificationQuestion ∧
    (runTurn fac fullAnswer tc).2.1.citations = [] ∧
    (runTurn fac fullAnswer tc).2.1.followUps = [] ∧
    (runTurn fac fullAnswer tc).2.2 = tc := by
  have hr : runTurn fac fullAnswer tc
      = ([.stage_started "Facilitator", .stage_completed "Facilitator", .complete],
         ({ summary := fac.clarificationQuestion
            citations := []
            followUps := []
            confidence := 0
            processingTimeMs := 0
            relatedKeywords := []
            agentTrail := stageEvents "Facilitator" }, tc)) := by
    simp [runTurn, h, stageEvents]
  rw [hr]
  refine ⟨rfl, ?_, rfl, rfl, rfl, rfl, rfl⟩
  intro e he
  simp only [List.mem_cons, List.not_mem_nil, or_false] at he
  rcases he with h1 | h1 | h1 <;> subst h1 <;> simp [OrchEvent.agentName]

/-- A placeholder assembled answer for the C7 witness. -/
def demoFullAnswer : FinalAnswer := ⟨"", [], [], 0, 0, [], []⟩

/-- Witness for C7 at a concrete clarification outcome. -/
theorem clarification_short_circuits_turn_witness :
    (runTurn ⟨true, "Q"⟩ demoFullAnswer 3).2.2 = 3 ∧
    (runTurn ⟨true, "Q"⟩ demoFullAnswer 3).2.1.summary = "Q" ∧
    (runTurn ⟨true, "Q"⟩ demoFullAnswer 3).1
      = [.stage_started "Facilitator", .stage_completed "Facilitator", .complete] :=
  ⟨(clarification_short_circuits_turn ⟨true, "Q"⟩ demoFullAnswer 3 rfl).2.2.2.2.2.2,
   (clarification_short_circuits_turn ⟨true, "Q"⟩ demoFullAnswer 3 rfl).2.2.2.1,
   (clarification_short_circuits_turn ⟨true, "Q"⟩ demoFullAnswer 3 rfl).1⟩

/-! ## C5 -/

/-- Updating a message id that does not occur leaves the list alone. -/
theorem setMessageContent_not_present (ms : List Message) (aid : String)
    (c : MessageContent) (h : ∀ m ∈ ms, m.id ≠ aid) :
    setMessageContent ms aid c = ms := by
  induction ms with
  | nil => rfl
  | cons m rest ih =>
    simp only [setMessageContent, List.map_cons] at *
    rw [if_neg (h m (by simp)), ih (fun x hx => h x (by simp [hx]))]

/-- Updating the trailing assistant slot replaces exactly its content. -/
theorem setMessageContent_append_slot (history : List Message)
    (aid r : String) (c0 c : MessageContent)
    (hhist : ∀ m ∈ history, m.id ≠ aid) :
    setMessageContent (history ++ [⟨aid, r, c0⟩]) aid c
      = history ++ [⟨aid, r, c⟩] := by
  unfold setMessageContent
  rw [List.map_append]
  congr 1
  · exact setMessageContent_not_present history aid c hhist
  · simp

/-- Every branch of `flushLine` either keeps the message list or
rewrites it through `setMessageContent` at the assistant id. -/
theorem flushLine_messages_shape (parse : String → Option Json) (aid : String)
    (st : ChatStreamState) (line : String) :
    (flushLine parse aid st line).messages = st.messages ∨
    ∃ c, (flushLine parse aid st line).messages
        = setMessageContent st.messages aid c := by
  unfold flushLine
  split
  · exact Or.inl rfl
  split
  · exact Or.inl rfl
  split
  · split
    · exact Or.inl rfl
    split
    · split
      · exact Or.inr ⟨_, rfl⟩
      · exact Or.inl rfl
    split
    · exact Or.inr ⟨_, rfl⟩
    split
    · exact Or.inr ⟨_, rfl⟩
    · exact Or.inl rfl
  · exact Or.inl rfl

/-- `flushLine` keeps the history/assistant-slot shape of the messages. -/
theorem flushLine_preserves_slot (parse : String → Option Json)
    (aid : String) (history : List Message)
    (hhist : ∀ m ∈ history, m.id ≠ aid) (st : ChatStreamState) (line : String)
    (hst : ∃ c, st.messages = history ++ [⟨aid, "assistant", c⟩]) :
    ∃ c, (flushLine parse aid st line).messages
        = history ++ [⟨aid, "assistant", c⟩] := by
  rcases flushLine_messages_shape parse aid st line with h | ⟨c, h⟩
  · rw [h]; exact hst
  · rcases hst with ⟨c0, h0⟩
    rw [h, h0]
    exact ⟨c, setMessageContent_append_slot history aid "assistant" c0 c hhist⟩

/-- Folding `flushLine` over lines keeps the messages shape. -/
theorem foldl_flushLine_preserves_slot (parse : String → Option Json)
    (aid : String) (history : List Message)
    (hhist : ∀ m ∈ history, m.id ≠ aid) (lines : List String)
    (st : ChatStreamState)
    (hst : ∃ c, st.messages = history ++ [⟨aid, "assistant", c⟩]) :
    ∃ c, (lines.foldl (flushLine parse aid) st).messages
        = history ++ [⟨aid, "assistant", c⟩] := by
  induction lines generalizing st with
  | nil => exact hst
  | cons l ls ih =>
    exact ih _ (flushLine_preserves_slot parse aid history hhist st l hst)

/-- The read loop keeps the messages shape. -/
theorem readStreamLoop_preserves_slot (parse : String → Option Json)
    (aid : String) (history : List Message)
    (hhist : ∀ m ∈ history, m.id ≠ aid) (chunks : List String) :
    ∀ (st : ChatStreamState) (buffer : String),
    (∃ c, st.messages = history ++ [⟨aid, "assistant", c⟩]) →
    ∃ c, (readStreamLoop parse aid st buffer chunks).1.messages
        = history ++ [⟨aid, "assistant", c⟩] := by
  induction chunks with
  | nil => intro st buffer hst; exact hst
  | cons ch rest ih =>
    intro st buffer hst
    unfold readStreamLoop
    dsimp only
    split
    · exact hst
    · exact ih _ _
        (foldl_flushLine_preserves_slot parse aid history hhist _ st hst)

/-- C5: Whenever the chat request or the reading of its stream throws on
the client, the client does not hang: the catch block appends (throw
before the placeholder) or replaces (throw mid-stream) the assistant
message with the locally-constructed degraded response — the hard-coded
mock answer for the query with one fixed citation, two follow-up
prompts, an empty agent trail and confidence 0 — and the finally block
clears the loading state and the live trail. -/
theorem client_falls_back_to_mock_on_failure (parse : String → Option Json)
    (query : String) (history : List Message) (aid fid : String)
    (hhist : ∀ m ∈ history, m.id ≠ aid) :
    ((handleAPICall parse query history aid fid .fetchFailed).messages
        = history ++ [⟨fid, "assistant", .answer (createMockResponse query)⟩] ∧
     (handleAPICall parse query history aid fid .fetchFailed).isLoading = false ∧
     (handleAPICall parse query history aid fid .fetchFailed).currentAgentTrail = []) ∧
    (∀ chunks,
      (handleAPICall parse query history aid fid (.streamFailed chunks)).messages
        = history ++ [⟨aid, "assistant", .answer (createMockResponse query)⟩] ∧
      (handleAPICall parse query history aid fid (.streamFailed chunks)).isLoading = false ∧
      (handleAPICall parse query history aid fid (.streamFailed chunks)).currentAgentTrail
        = []) ∧
    ((createMockResponse query).citations
        = [⟨"개인정보보호법 제5조", "개인정보 보호 기본 원칙을 규정한 조문입니다.",
            "https://www.law.go.kr/LSW/lsInfoP.do?lsId=008032", none⟩] ∧
     (createMockResponse query).followUps.length = 2 ∧
     (createMockResponse query).confidence = some 0 ∧
     (createMockResponse query).agentTrail = some []) := by
  refine ⟨⟨rfl, rfl, rfl⟩, ?_, rfl, rfl, rfl, rfl⟩
  intro chunks
  refine ⟨?_, rfl, rfl⟩
  show setMessageContent
      (readStreamLoop parse aid
        ⟨history ++ [⟨aid, "assistant", .text ""⟩], [], "", [], false⟩
        "" chunks).1.messages aid (.answer (createMockResponse query))
    = history ++ [⟨aid, "assistant", .answer (createMockResponse query)⟩]
  obtain ⟨c, hc⟩ := readStreamLoop_preserves_slot parse aid history hhist chunks
    ⟨history ++ [⟨aid, "assistant", .text ""⟩], [], "", [], false⟩ ""
    ⟨.text "", rfl⟩
  rw [hc]
  exact setMessageContent_append_slot history aid "assistant" c _ hhist

/-- Witness for C5 at a concrete query with empty history. -/
theorem client_falls_back_to_mock_on_failure_witness :
    (handleAPICall (fun _ => none) "q" [] "a1" "a2" .fetchFailed).messages
      = [] ++ [⟨"a2", "assistant", .answer (createMockResponse "q")⟩] ∧
    (handleAPICall (fun _ => none) "q" [] "a1" "a2" (.streamFailed ["z"])).messages
      = [] ++ [⟨"a1", "assistant", .answer (createMockResponse "q")⟩] ∧
    (handleAPICall (fun _ => none) "q" [] "a1" "a2" (.streamFailed ["z"])).isLoading
      = false :=
  ⟨(client_falls_back_to_mock_on_failure (fun _ => none) "q" [] "a1" "a2"
      (fun m hm => absurd hm (List.not_mem_nil m))).1.1,
   ((client_falls_back_to_mock_on_failure (fun _ => none) "q" [] "a1" "a2"
      (fun m hm => absurd hm (List.not_mem_nil m))).2.1 ["z"]).1,
   ((client_falls_back_to_mock_on_failure (fun _ => none) "q" [] "a1" "a2"
      (fun m hm => absurd hm (List.not_mem_nil m))).2.1 ["z"]).2.1⟩

/-! ## C9 -/

/-- `Array.isArray` fallback: a missing or non-array value yields `[]`. -/
theorem arrayOrNil_eq_nil (o : Option Json) (h : ∀ xs, o ≠ some (.arr xs)) :
    arrayOrNil o = [] := by
  match o with
  | none => rfl
  | some .null => rfl
  | some (.bool b) => rfl
  | some (.num q) => rfl
  | some (.str s) => rfl
  | some (.arr xs) => exact absurd rfl (h xs)
  | some (.obj fs) => rfl

/-- `typeof` guard: a missing or non-numeric value yields `undefined`. -/
theorem numOrNone_eq_none (o : Option Json) (h : ∀ q, o ≠ some (.num q)) :
    numOrNone o = none := by
  match o with
  | none => rfl
  | some .null => rfl
  | some (.bool b) => rfl
  | some (.num q) => exact absurd rfl (h q)
  | some (.str s) => rfl
  | some (.arr xs) => rfl
  | some (.obj fs) => rfl

/-- C9: The mapping of a `complete` event's `final_response` payload is
total over arbitrary parsed values (it is a Lean function, so it cannot
fail), and degenerate inputs are replaced by defaults: a missing
`answer` gives an empty summary, non-array `sources`/`followUps` give
empty citation/follow-up lists, a citation element missing both
`source_name`/`title` (resp. `link`/`url`) gets `출처 미상` (resp. `#`),
and non-numeric `confidence`/`processing_time` are omitted. -/
theorem mapFinalResponse_total_with_defaults (fr s : Json)
    (trail : List AgentEvent) :
    (fr.get "answer" = none →
      (mapFinalResponseToAssistantMessage fr trail).summary = "") ∧
    ((∀ xs, fr.get "sources" ≠ some (.arr xs)) →
      (mapFinalResponseToAssistantMessage fr trail).citations = []) ∧
    ((∀ xs, fr.get "followUps" ≠ some (.arr xs)) →
      (mapFinalResponseToAssistantMessage fr trail).followUps = []) ∧
    ((∀ q, fr.get "confidence" ≠ some (.num q)) →
      (mapFinalResponseToAssistantMessage fr trail).confidence = none) ∧
    ((∀ q, fr.get "processing_time" ≠ some (.num q)) →
      (mapFinalResponseToAssistantMessage fr trail).processingTime = none) ∧
    (s.get "source_name" = none → s.get "title" = none →
      (mapSourceToCitation s).source_name = "출처 미상") ∧
    (s.get "link" = none → s.get "url" = none →
      (mapSourceToCitation s).link = "#") := by
  refine ⟨?_, ?_, ?_, ?_, ?_, ?_, ?_⟩
  · intro h
    simp [mapFinalResponseToAssistantMessage, h, jsNullish, jsString]
  · intro h
    simp [mapFinalResponseToAssistantMessage, arrayOrNil_eq_nil _ h]
  · intro h
    simp [mapFinalResponseToAssistantMessage, arrayOrNil_eq_nil _ h]
  · intro h
    simp [mapFinalResponseToAssistantMessage, numOrNone_eq_none _ h]
  · intro h
    simp [mapFinalResponseToAssistantMessage, numOrNone_eq_none _ h]
  · intro h1 h2
    simp [mapSourceToCitation, h1, h2, jsNullish, jsString]
  · intro h1 h2
    simp [mapSourceToCitation, h1, h2, jsNullish, jsString]

/-- Witness for C9 at the empty object (every field missing). -/
theorem mapFinalResponse_total_with_defaults_witness :
    (mapFinalResponseToAssistantMessage (Json.obj []) []).summary = "" ∧
    (mapFinalResponseToAssistantMessage (Json.obj []) []).citations = [] ∧
    (mapFinalResponseToAssistantMessage (Json.obj []) []).followUps = [] ∧
    (mapFinalResponseToAssistantMessage (Json.obj []) []).confidence = none ∧
    (mapFinalResponseToAssistantMessage (Json.obj []) []).processingTime = none ∧
    (mapSourceToCitation (Json.obj [])).source_name = "출처 미상" ∧
    (mapSourceToCitation (Json.obj [])).link = "#" := by
  have h := mapFinalResponse_total_with_defaults (Json.obj []) (Json.obj []) []
  exact ⟨h.1 rfl, h.2.1 (fun xs hx => Option.noConfusion hx),
    h.2.2.1 (fun xs hx => Option.noConfusion hx),
    h.2.2.2.1 (fun q hq => Option.noConfusion hq),
    h.2.2.2.2.1 (fun q hq => Option.noConfusion hq),
    h.2.2.2.2.2.1 rfl rfl, h.2.2.2.2.2.2 rfl rfl⟩

/-! ## C3 -/

/-- `x ?? d` keeps any present non-null value. -/
theorem jsNullish_some (v d : Json) (h : v ≠ .null) :
    jsNullish (some v) d = v := by
  cases v
  · exact absurd rfl h
  all_goals rfl

/-- A source list whose elements carry exactly the four citation fields
maps to exactly those citations, in order. -/
theorem map_source_eq_of_forall₂ (ss : List Json) (cits : List Citation)
    (h : List.Forall₂ (fun (sj : Json) (ct : Citation) =>
        sj.get "source_name" = some (.str ct.source_name) ∧
        sj.get "description" = some (.str ct.description) ∧
        sj.get "link" = some (.str ct.link) ∧
        ∃ q, sj.get "confidence" = some (.num q) ∧ ct.confidence = some q)
      ss cits) :
    ss.map mapSourceToCitation = cits := by
  induction h with
  | nil => rfl
  | cons hd _ ih =>
    rename_i sj ct ss' cits' _
    obtain ⟨h1, h2, h3, q, h4, h5⟩ := hd
    obtain ⟨n, d, l, cf⟩ := ct
    simp only at h1 h2 h3 h5
    simp only [List.map_cons, ih, List.cons.injEq, and_true]
    simp [mapSourceToCitation, h1, h2, h3, h4, h5, jsNullish, jsString, numOrNone]

/-- C3: For every `complete` event, the assistant message is assembled
exactly from the event's `final_response` fields: the summary is the
string `answer`, the citations take each `sources` element's
`source_name`, `description`, `link` and numeric `confidence` in order,
the followUps are the stringified `followUps` list, and numeric
`confidence`, numeric `processing_time` and the `related_keywords` list
are copied through unchanged, with the collected trail attached; and
`flushLine` installs exactly this assistant message and terminates the
turn. -/
theorem complete_event_assembles_exact_answer
    (parse : String → Option Json) (aid line : String) (st : ChatStreamState)
    (e fr : Json) (ans : String) (ss : List Json) (cits : List Citation)
    (fuStrs : List String) (c p : ℚ) (ks : List Json)
    (hline : jsTrim line ≠ "") (hrun : st.streamCompleted = false)
    (hparse : parse line = some e)
    (htype : e.get "type" = some (.str "complete"))
    (hfr : e.get "final_response" = some fr) (hfrnn : fr ≠ .null)
    (hans : fr.get "answer" = some (.str ans))
    (hsrc : fr.get "sources" = some (.arr ss))
    (hfu : fr.get "followUps" = some (.arr (fuStrs.map Json.str)))
    (hconf : fr.get "confidence" = some (.num c))
    (hpt : fr.get "processing_time" = some (.num p))
    (hkw : fr.get "related_keywords" = some (.arr ks))
    (hcits : List.Forall₂ (fun (sj : Json) (ct : Citation) =>
        sj.get "source_name" = some (.str ct.source_name) ∧
        sj.get "description" = some (.str ct.description) ∧
        sj.get "link" = some (.str ct.link) ∧
        ∃ q, sj.get "confidence" = some (.num q) ∧ ct.confidence = some q)
      ss cits) :
    mapFinalResponseToAssistantMessage fr st.localTrail =
      { summary := ans
        citations := cits
        followUps := fuStrs
        confidence := some c
        processingTime := some p
        relatedKeywords := some ks
        agentTrail := some st.localTrail } ∧
    flushLine parse aid st line =
      { st with
        messages := setMessageContent st.messages aid
          (.answer (mapFinalResponseToAssistantMessage fr st.localTrail))
        currentAgentTrail := []
        streamCompleted := true } := by
  constructor
  · unfold mapFinalResponseToAssistantMessage
    rw [hans, hsrc, hfu, hconf, hpt, hkw]
    dsimp only
    simp only [arrayOrNil, numOrNone, List.map_map]
    rw [map_source_eq_of_forall₂ ss cits hcits]
    have hfus : fuStrs.map (jsString ∘ Json.str) = fuStrs := by
      rw [show (jsString ∘ Json.str) = id from funext (fun s => rfl), List.map_id]
    rw [hfus]
    rfl
  · have hnull := jsNullish_some fr (Json.obj []) hfrnn
    simp [flushLine, hline, hrun, hparse, htype, hfr, hnull]

/-- The `final_response` of the C3 witness event. -/
def c3FinalResponse : Json :=
  Json.obj [("answer", .str "A"),
    ("sources", Json.arr [Json.obj [("source_name", .str "S"),
      ("description", .str "D"), ("link", .str "L"), ("confidence", .num 1)]]),
    ("followUps", Json.arr [.str "F1", .str "F2"]),
    ("confidence", .num 1),
    ("processing_time", .num 2),
    ("related_keywords", Json.arr [.str "K"])]

/-- A concrete well-formed `complete` event. -/
def c3Event : Json :=
  Json.obj [("type", .str "complete"), ("final_response", c3FinalResponse)]

/-- Witness for C3 at the concrete `complete` event above. -/
theorem complete_event_assembles_exact_answer_witness :
    mapFinalResponseToAssistantMessage c3FinalResponse liveState.localTrail =
      { summary := "A"
        citations := [⟨"S", "D", "L", some 1⟩]
        followUps := ["F1", "F2"]
        confidence := some 1
        processingTime := some 2
        relatedKeywords := some [.str "K"]
        agentTrail := some liveState.localTrail } ∧
    (flushLine (fun _ => some c3Event) "a1" liveState "e").streamCompleted = true := by
  have h := complete_event_assembles_exact_answer (fun _ => some c3Event) "a1" "e"
    liveState c3Event c3FinalResponse "A"
    [Json.obj [("source_name", .str "S"), ("description", .str "D"),
      ("link", .str "L"), ("confidence", .num 1)]]
    [⟨"S", "D", "L", some 1⟩] ["F1", "F2"] 1 2 [.str "K"]
    (by decide) rfl rfl rfl rfl (fun hx => Json.noConfusion hx)
    rfl rfl rfl rfl rfl rfl
    (List.Forall₂.cons ⟨rfl, rfl, rfl, 1, rfl, rfl⟩ List.Forall₂.nil)
  exact ⟨h.1, by rw [h.2]⟩

/-! ## C4 -/

/-- A protocol event the client never matches on. -/
def stageStartedEvent : Json :=
  Json.obj [("type", .str "stage_started"), ("agent", .str "search")]

/-- C4 counterexample: an event bearing the protocol discriminator
`stage_started` is silently discarded by the consumer — the state, and
in particular the agent trail it should have been appended to, is left
unchanged. -/
theorem stage_started_event_silently_discarded :
    flushLine (fun _ => some stageStartedEvent) "a1" liveState "e" = liveState ∧
    liveState.localTrail = [] := ⟨rfl, rfl⟩

/-- C4 (amended): Every event whose `type` is a discriminator the
consumer actually handles is processed — `agent_step` or `pipeline`
events are appended to the turn's agent trail, string `content` is
appended to the partial answer, `complete` and `error` terminate the
turn — while events bearing the spec's `stage_started` or
`stage_completed` discriminators are silently discarded, leaving the
state unchanged. -/
theorem consumer_event_dispatch (parse : String → Option Json)
    (aid line : String) (st : ChatStreamState) (e : Json)
    (hline : jsTrim line ≠ "") (hrun : st.streamCompleted = false)
    (hparse : parse line = some e) :
    (∀ t, e.get "type" = some (.str t) → t = "agent_step" ∨ t = "pipeline" →
      flushLine parse aid st line =
        { st with
          localTrail := st.localTrail ++ [normalizeAgentEvent e]
          currentAgentTrail := st.localTrail ++ [normalizeAgentEvent e] }) ∧
    (∀ c, e.get "type" = some (.str "content") →
      e.get "content" = some (.str c) →
      flushLine parse aid st line =
        { st with
          partialAnswer := st.partialAnswer ++ c
          messages := setMessageContent st.messages aid
            (.text (st.partialAnswer ++ c)) }) ∧
    (e.get "type" = some (.str "complete") →
      (flushLine parse aid st line).streamCompleted = true) ∧
    (e.get "type" = some (.str "error") →
      (flushLine parse aid st line).streamCompleted = true) ∧
    (∀ t, e.get "type" = some (.str t) →
      t = "stage_started" ∨ t = "stage_completed" →
      flushLine parse aid st line = st) := by
  have hcond : ¬ (jsTrim line = "" ∨ st.streamCompleted = true) := by
    simp [hline, hrun]
  refine ⟨?_, ?_, ?_, ?_, ?_⟩
  · intro t htype hdisc
    unfold flushLine
    rw [if_neg hcond]
    simp only [hparse, htype]
    rcases hdisc with rfl | rfl <;> simp
  · intro c htype hcontent
    unfold flushLine
    rw [if_neg hcond]
    simp only [hparse, htype, hcontent]
    simp
  · intro htype
    unfold flushLine
    rw [if_neg hcond]
    simp only [hparse, htype]
    simp
  · intro htype
    unfold flushLine
    rw [if_neg hcond]
    simp only [hparse, htype]
    simp
  · intro t htype hdisc
    unfold flushLine
    rw [if_neg hcond]
    simp only [hparse, htype]
    rcases hdisc with rfl | rfl <;> simp

/-- A concrete trail event the consumer does handle. -/
def pipelineEvent : Json :=
  Json.obj [("type", .str "pipeline"), ("agent", .str "search")]

/-- Witness for the amended C4 at a concrete `pipeline` event. -/
theorem consumer_event_dispatch_witness :
    flushLine (fun _ => some pipelineEvent) "a1" liveState "e" =
      { liveState with
        localTrail := liveState.localTrail ++ [normalizeAgentEvent pipelineEvent]
        currentAgentTrail :=
          liveState.localTrail ++ [normalizeAgentEvent pipelineEvent] } :=
  (consumer_event_dispatch (fun _ => some pipelineEvent) "a1" "e" liveState
    pipelineEvent (by decide) rfl rfl).1 "pipeline" rfl (Or.inr rfl)

/-! ## C6: properties of greedy leftmost split -/

/-- `List.isPrefixOf` agrees with the prefix order. -/
theorem isPrefixOf_eq_true_iff (l₁ l₂ : List Char) :
    l₁.isPrefixOf l₂ ↔ l₁ <+: l₂ :=
  List.isPrefixOf_iff_prefix

/-- A split yields at least one segment. -/
theorem splitSep_ne_nil (sep xs : List Char) : splitSep sep xs ≠ [] := by
  cases xs with
  | nil => simp [splitSep]
  | cons x rest =>
    unfold splitSep
    split
    · simp
    · split <;> simp

/-- Unfolding of `splitSep` when the separator leads the input. -/
theorem splitSep_cons_pos (sep : List Char) (x : Char) (xs : List Char)
    (hc : sep ≠ [] ∧ sep.isPrefixOf (x :: xs) = true) :
    splitSep sep (x :: xs) = [] :: splitSep sep ((x :: xs).drop sep.length) := by
  conv_lhs => rw [splitSep]
  rw [dif_pos hc]

/-- Unfolding of `splitSep` when the separator does not lead the input. -/
theorem splitSep_cons_neg (sep : List Char) (x : Char) (xs : List Char)
    (hc : ¬ (sep ≠ [] ∧ sep.isPrefixOf (x :: xs) = true)) :
    splitSep sep (x :: xs)
      = match splitSep sep xs with
        | [] => [[x]]
        | s :: ss => (x :: s) :: ss := by
  conv_lhs => rw [splitSep]
  rw [dif_neg hc]

/-- An input shorter than the separator is returned unsplit. -/
theorem splitSep_of_length_lt (sep : List Char) :
    ∀ xs : List Char, xs.length < sep.length → splitSep sep xs = [xs] := by
  intro xs
  induction xs with
  | nil => intro _; simp [splitSep]
  | cons x rest ih =>
    intro h
    have hnp : ¬ (sep ≠ [] ∧ sep.isPrefixOf (x :: rest) = true) := by
      rintro ⟨hne, hp⟩
      have hle := ((isPrefixOf_eq_true_iff _ _).mp hp).length_le
      simp only [List.length_cons] at hle h
      omega
    unfold splitSep
    rw [dif_neg hnp, ih (by simp only [List.length_cons] at h; omega)]

/-- A one-segment split returns the whole input. -/
theorem eq_of_splitSep_singleton (sep : List Char) :
    ∀ xs s : List Char, splitSep sep xs = [s] → s = xs := by
  intro xs
  induction xs with
  | nil =>
    intro s h
    simp only [splitSep] at h
    injection h with h1 _
    exact h1.symm
  | cons x rest ih =>
    intro s h
    unfold splitSep at h
    by_cases hc : sep ≠ [] ∧ sep.isPrefixOf (x :: rest) = true
    · rw [dif_pos hc] at h
      injection h with _ h2
      exact absurd h2 (splitSep_ne_nil _ _)
    · rw [dif_neg hc] at h
      rcases hL : splitSep sep rest with _ | ⟨a, L⟩
      · exact absurd hL (splitSep_ne_nil _ _)
      · rw [hL] at h
        dsimp only at h
        injection h with h1 h2
        subst h2
        have ha : a = rest := ih a hL
        rw [h1.symm, ha]

/-- The first segment of a split is a leading part of the input. -/
theorem splitSep_head_leads (sep : List Char) :
    ∀ xs : List Char, ∃ s ss, splitSep sep xs = s :: ss ∧ s <+: xs := by
  intro xs
  induction xs with
  | nil => exact ⟨[], [], by simp [splitSep], List.nil_prefix⟩
  | cons x rest ih =>
    by_cases hc : sep ≠ [] ∧ sep.isPrefixOf (x :: rest) = true
    · exact ⟨[], splitSep sep ((x :: rest).drop sep.length),
        splitSep_cons_pos sep x rest hc, List.nil_prefix⟩
    · obtain ⟨s, ss, hss, hlead⟩ := ih
      refine ⟨x :: s, ss, ?_, List.cons_prefix_cons.mpr ⟨rfl, hlead⟩⟩
      rw [splitSep_cons_neg sep x rest hc, hss]

/-- No segment of a split contains the separator. -/
theorem splitSep_parts_sep_free (sep : List Char) (hsep : sep ≠ []) (xs : List Char) :
    ∀ part ∈ splitSep sep xs, ¬ sep <:+: part := by
  induction xs using splitSep.induct sep with
  | case1 =>
    intro part hp hinf
    simp only [splitSep, List.mem_singleton] at hp
    subst hp
    exact hsep (List.eq_nil_of_infix_nil hinf)
  | case2 x xs hc ih =>
    intro part hp hinf
    rw [splitSep_cons_pos sep x xs hc] at hp
    rcases List.mem_cons.mp hp with rfl | hp'
    · exact hsep (List.eq_nil_of_infix_nil hinf)
    · exact ih part hp' hinf
  | case3 x xs hc hnil ih => exact absurd hnil (splitSep_ne_nil sep xs)
  | case4 x xs hc s ss heq ih =>
    intro part hp hinf
    rw [splitSep_cons_neg sep x xs hc, heq] at hp
    dsimp only at hp
    rcases List.mem_cons.mp hp with rfl | hp'
    · rcases List.infix_cons_iff.mp hinf with hpre | hinf'
      · obtain ⟨s0, ss0, hss0, hlead⟩ := splitSep_head_leads sep xs
        rw [heq] at hss0
        injection hss0 with e1 _
        subst e1
        have hx : sep <+: x :: xs :=
          hpre.trans (List.cons_prefix_cons.mpr ⟨rfl, hlead⟩)
        exact hc ⟨hsep, (isPrefixOf_eq_true_iff _ _).mpr hx⟩
      · exact ih s (by rw [heq]; exact List.mem_cons_self _ _) hinf'
    · exact ih part (by rw [heq]; exact List.mem_cons_of_mem _ hp') hinf

/-- A separator-free input is returned unsplit. -/
theorem splitSep_eq_single_of_sep_free (sep : List Char) (hsep : sep ≠ [])
    (xs : List Char) (h : ¬ sep <:+: xs) : splitSep sep xs = [xs] := by
  induction xs with
  | nil => simp [splitSep]
  | cons x rest ih =>
    have hnp : ¬ (sep ≠ [] ∧ sep.isPrefixOf (x :: rest) = true) := by
      rintro ⟨-, hp⟩
      exact h ((isPrefixOf_eq_true_iff _ _).mp hp).isInfix
    unfold splitSep
    rw [dif_neg hnp, ih (fun hinf => h (List.infix_cons hinf))]

/-- Every character of a segment occurs in the input. -/
theorem splitSep_mem_subset (sep : List Char) (xs : List Char) :
    ∀ part ∈ splitSep sep xs, ∀ c ∈ part, c ∈ xs := by
  induction xs using splitSep.induct sep with
  | case1 =>
    intro part hp c hc
    simp only [splitSep, List.mem_singleton] at hp
    subst hp
    exact absurd hc (List.not_mem_nil c)
  | case2 x xs hc ih =>
    intro part hp c hcp
    rw [splitSep_cons_pos sep x xs hc] at hp
    rcases List.mem_cons.mp hp with rfl | hp'
    · exact absurd hcp (List.not_mem_nil c)
    · exact List.mem_of_mem_drop (ih part hp' c hcp)
  | case3 x xs hc hnil ih => exact absurd hnil (splitSep_ne_nil sep xs)
  | case4 x xs hc s ss heq ih =>
    intro part hp c hcp
    rw [splitSep_cons_neg sep x xs hc, heq] at hp
    dsimp only at hp
    rcases List.mem_cons.mp hp with rfl | hp'
    · rcases List.mem_cons.mp hcp with rfl | hcs
      · exact List.mem_cons_self _ _
      · exact List.mem_cons_of_mem _
          (ih s (by rw [heq]; exact List.mem_cons_self _ _) c hcs)
    · exact List.mem_cons_of_mem _
        (ih part (by rw [heq]; exact List.mem_cons_of_mem _ hp') c hcp)

/-- Greedy leftmost split is incremental: splitting `xs ++ ys` keeps all
complete segments of `xs` and re-splits the trailing segment joined with
`ys`. -/
theorem splitSep_append (sep : List Char) (hsep : sep ≠ []) :
    ∀ xs ys : List Char,
    splitSep sep (xs ++ ys) =
      (splitSep sep xs).dropLast
        ++ splitSep sep ((splitSep sep xs).getLast?.getD [] ++ ys) := by
  intro xs
  induction xs using splitSep.induct sep with
  | case1 =>
    intro ys
    simp [splitSep]
  | case2 x xs hc ih =>
    intro ys
    have heqx : splitSep sep (x :: xs)
        = [] :: splitSep sep ((x :: xs).drop sep.length) :=
      splitSep_cons_pos sep x xs hc
    have hle : sep.length ≤ (x :: xs).length :=
      ((isPrefixOf_eq_true_iff _ _).mp hc.2).length_le
    have hps2 : sep.isPrefixOf (x :: (xs ++ ys)) = true :=
      (isPrefixOf_eq_true_iff _ _).mpr
        (((isPrefixOf_eq_true_iff _ _).mp hc.2).trans (List.prefix_append _ _))
    have heqxy : splitSep sep (x :: (xs ++ ys))
        = [] :: splitSep sep ((x :: (xs ++ ys)).drop sep.length) :=
      splitSep_cons_pos sep x (xs ++ ys) ⟨hsep, hps2⟩
    have hdrop : (x :: (xs ++ ys)).drop sep.length
        = (x :: xs).drop sep.length ++ ys := by
      have h1 : ((x :: xs) ++ ys).drop sep.length
          = (x :: xs).drop sep.length ++ ys := List.drop_append_of_le_length hle
      simpa using h1
    rw [show (x :: xs) ++ ys = x :: (xs ++ ys) from rfl, heqxy, hdrop, ih, heqx]
    rcases hLd : splitSep sep ((x :: xs).drop sep.length) with _ | ⟨a, L⟩
    · exact absurd hLd (splitSep_ne_nil _ _)
    · rfl
  | case3 x xs hc hnil ih => exact absurd hnil (splitSep_ne_nil sep xs)
  | case4 x xs hc s ss heq ih =>
    intro ys
    have heqx : splitSep sep (x :: xs) = (x :: s) :: ss := by
      rw [splitSep_cons_neg sep x xs hc, heq]
    by_cases hps : sep.isPrefixOf (x :: (xs ++ ys)) = true
    · have hpre : sep <+: (x :: xs) ++ ys := (isPrefixOf_eq_true_iff _ _).mp hps
      have hlen : (x :: xs).length < sep.length := by
        by_contra hge
        push_neg at hge
        exact hc ⟨hsep, (isPrefixOf_eq_true_iff _ _).mpr
          (List.prefix_of_prefix_length_le hpre (List.prefix_append _ _) hge)⟩
      rw [splitSep_of_length_lt sep _ hlen]
      simp
    · have hnp2 : ¬ (sep ≠ [] ∧ sep.isPrefixOf (x :: (xs ++ ys)) = true) :=
        fun hand => hps hand.2
      have heqxy : splitSep sep (x :: (xs ++ ys))
          = match splitSep sep (xs ++ ys) with
            | [] => [[x]]
            | s' :: ss' => (x :: s') :: ss' :=
        splitSep_cons_neg sep x (xs ++ ys) hnp2
      rcases ss with _ | ⟨b, ss'⟩
      · have hsx : s = xs := eq_of_splitSep_singleton sep xs s heq
        subst hsx
        rw [heqx]
        simp
      · rw [show (x :: xs) ++ ys = x :: (xs ++ ys) from rfl, heqxy, ih ys, heq,
          heqx]
        rfl

/-- The full upstream text delivered by a chunk sequence. -/
def concatChunks (chunks : List String) : String := chunks.foldr (· ++ ·) ""

/-- `trimChars` erases the input exactly when it is all whitespace. -/
theorem trimChars_eq_nil_iff (cs : List Char) :
    trimChars cs = [] ↔ ∀ c ∈ cs, jsWhite c := by
  unfold trimChars
  rw [List.reverse_eq_nil_iff, List.dropWhile_eq_nil_iff]
  constructor
  · intro h c hc
    have hsplit := List.takeWhile_append_dropWhile (p := jsWhite) (l := cs)
    have hc' : c ∈ cs.takeWhile jsWhite ++ cs.dropWhile jsWhite := by
      rw [hsplit]; exact hc
    rcases List.mem_append.mp hc' with h1 | h2
    · exact List.mem_takeWhile_imp h1
    · exact h c (List.mem_reverse.mpr h2)
  · intro h c hc
    exact h c ((List.dropWhile_sublist jsWhite).subset (List.mem_reverse.mp hc))

/-- `jsTrim` erases a string exactly when it is all whitespace. -/
theorem jsTrim_eq_empty_iff (s : String) :
    jsTrim s = "" ↔ ∀ c ∈ s.toList, jsWhite c := by
  unfold jsTrim
  rw [← trimChars_eq_nil_iff]
  constructor
  · intro h
    have h2 : (String.mk (trimChars s.toList)).data = ("" : String).data :=
      congrArg String.data h
    simpa using h2
  · intro h
    rw [h]

/-- A whitespace-only segment yields no event, in the code and in the
specification description alike. -/
theorem flushBufferedEvent_of_trim_empty (reframe : String → Option String)
    (s : String) (h : jsTrim s = "") :
    flushBufferedEvent reframe s = [] ∧ specSegmentEvent reframe s = none := by
  have hw : ∀ c ∈ s.toList, jsWhite c := (jsTrim_eq_empty_iff s).mp h
  have hfilter : ((jsSplit "\n" s).map jsTrim).filter
      (fun l => l.startsWith "data: ") = [] := by
    rw [List.filter_eq_nil_iff]
    intro l hl
    obtain ⟨l0, hl0, rfl⟩ := List.mem_map.mp hl
    obtain ⟨part, hpart, rfl⟩ := List.mem_map.mp hl0
    have hpw : ∀ c ∈ part, jsWhite c := fun c hc =>
      hw c (splitSep_mem_subset _ _ part hpart c hc)
    have hz : jsTrim (String.mk part) = "" :=
      (jsTrim_eq_empty_iff _).mpr (by simpa using hpw)
    rw [hz]
    decide
  constructor
  · unfold flushBufferedEvent
    rw [hfilter]
    rfl
  · unfold specSegmentEvent
    rw [hfilter]
    rfl

/-- The per-segment behaviour of the code agrees with the
specification's per-event description. -/
theorem flushBufferedEvent_eq_spec (reframe : String → Option String)
    (s : String) :
    flushBufferedEvent reframe s
      = ((specSegmentEvent reframe s).map ProxyChunk.event).toList := by
  unfold flushBufferedEvent specSegmentEvent
  dsimp only
  set dls := ((jsSplit "\n" s).map jsTrim).filter (fun l => l.startsWith "data: ")
    with hdls
  by_cases hd : dls = []
  · rw [if_pos hd, if_pos (by rw [hd]; rfl)]
    rfl
  · rw [if_neg hd, if_neg (fun hmap => hd (List.map_eq_nil_iff.mp hmap))]
    by_cases hp : String.intercalate "\n" (dls.map (fun l => l.drop 6)) = ""
    · rw [if_pos hp, if_pos hp]
      rfl
    · rw [if_neg hp, if_neg hp]
      cases reframe (String.intercalate "\n" (dls.map (fun l => l.drop 6))) <;> rfl

/-- Flushing a list of segments is the mapped spec description. -/
theorem flatMap_flush_eq_filterMap (reframe : String → Option String)
    (l : List String) :
    l.flatMap (flushBufferedEvent reframe)
      = (l.filterMap (specSegmentEvent reframe)).map ProxyChunk.event := by
  induction l with
  | nil => rfl
  | cons a t ih =>
    rw [show (a :: t).flatMap (flushBufferedEvent reframe)
        = flushBufferedEvent reframe a ++ t.flatMap (flushBufferedEvent reframe)
      from rfl]
    rw [flushBufferedEvent_eq_spec]
    cases hfa : specSegmentEvent reframe a <;>
      simp [List.filterMap_cons, hfa, ih]

/-- Splitting off the buffered tail commutes with the specification's
whole-response description. -/
theorem specStream_append_decomp (reframe : String → Option String)
    (s t : String) :
    (specReframedStream reframe (s ++ t)).map ProxyChunk.event
      = (jsSplit "\n\n" s).dropLast.flatMap (flushBufferedEvent reframe)
        ++ (specReframedStream reframe
            (((jsSplit "\n\n" s).getLast?.getD "") ++ t)).map ProxyChunk.event := by
  have hsepne : ("\n\n".toList : List Char) ≠ [] := by decide
  unfold specReframedStream jsSplit
  rw [show (s ++ t).toList = s.toList ++ t.toList from String.data_append s t]
  rw [splitSep_append ("\n\n".toList) hsepne s.toList t.toList]
  rw [List.map_append, List.filterMap_append, List.map_append]
  congr 1
  · rw [flatMap_flush_eq_filterMap, List.map_dropLast]
  · have hlast2 : ((((splitSep ("\n\n".toList) s.toList).map String.mk).getLast?.getD "")
          ++ t).toList
        = ((splitSep ("\n\n".toList) s.toList).getLast?.getD []) ++ t.toList := by
      show ((((splitSep ("\n\n".toList) s.toList).map String.mk).getLast?.getD "")
          ++ t).data
        = ((splitSep ("\n\n".toList) s.toList).getLast?.getD []) ++ t.data
      rw [String.data_append, List.getLast?_map]
      cases (splitSep ("\n\n".toList) s.toList).getLast? <;> rfl
    rw [hlast2]

/-- The proxy's chunked read loop computes the specification's
whole-response description, up to the still-buffered tail. -/
theorem processUpstreamChunks_spec (reframe : String → Option String) :
    ∀ (chunks : List String) (buffer : String),
    (processUpstreamChunks reframe buffer chunks).1
        ++ ((specReframedStream reframe
              (processUpstreamChunks reframe buffer chunks).2).map ProxyChunk.event)
      = (specReframedStream reframe
          (buffer ++ concatChunks chunks)).map ProxyChunk.event := by
  intro chunks
  induction chunks with
  | nil =>
    intro buffer
    simp only [processUpstreamChunks, List.nil_append]
    rw [show buffer ++ concatChunks [] = buffer from String.append_empty buffer]
  | cons c rest ih =>
    intro buffer
    unfold processUpstreamChunks
    dsimp only
    rw [List.append_assoc, ih]
    rw [show buffer ++ concatChunks (c :: rest) = (buffer ++ c) ++ concatChunks rest
      from (String.append_assoc buffer c (concatChunks rest)).symm]
    rw [specStream_append_decomp reframe (buffer ++ c) (concatChunks rest)]

/-- The buffered tail never contains a blank-line separator. -/
theorem processUpstreamChunks_buffer_sep_free (reframe : String → Option String) :
    ∀ (chunks : List String) (buffer : String),
    ¬ ("\n\n".toList <:+: buffer.toList) →
    ¬ ("\n\n".toList <:+: (processUpstreamChunks reframe buffer chunks).2.toList) := by
  intro chunks
  induction chunks with
  | nil => intro buffer h; exact h
  | cons c rest ih =>
    intro buffer _
    unfold processUpstreamChunks
    dsimp only
    apply ih
    have hne : splitSep ("\n\n".toList) ((buffer ++ c).toList) ≠ [] :=
      splitSep_ne_nil _ _
    have hmem := List.getLast_mem hne
    have hfree : ¬ ("\n\n".toList <:+:
        (splitSep ("\n\n".toList) ((buffer ++ c).toList)).getLast hne) :=
      splitSep_parts_sep_free _ (by decide) _ _ hmem
    have hlast : (jsSplit "\n\n" (buffer ++ c)).getLast?.getD ""
        = String.mk ((splitSep ("\n\n".toList) ((buffer ++ c).toList)).getLast hne) := by
      unfold jsSplit
      rw [List.getLast?_map, List.getLast?_eq_getLast _ hne]
      rfl
    rw [hlast]
    simpa using hfree

/-- C6: The proxy's re-framing preserves content and order — for every
upstream SSE response (delivered in arbitrary chunks), the downstream
stream is exactly the sequence of re-serialized events described by the
specification: one event per blank-line-separated SSE segment, in
upstream order, taking the newline-joined `data: ` payloads parsed as
JSON and re-serialized, with segments lacking a `data: ` line, with an
empty payload, or with an unparsable payload contributing nothing. -/
theorem proxy_reframing_refines_spec (reframe : String → Option String)
    (chunks : List String) :
    (createAgentStream reframe (some (chunks, false))).items
      = (specReframedStream reframe (concatChunks chunks)).map ProxyChunk.event := by
  unfold createAgentStream
  dsimp only
  simp only [Bool.false_eq_true, if_false]
  have hfree := processUpstreamChunks_buffer_sep_free reframe chunks "" (by decide)
  have hsingle : jsSplit "\n\n" (processUpstreamChunks reframe "" chunks).2
      = [(processUpstreamChunks reframe "" chunks).2] := by
    unfold jsSplit
    rw [splitSep_eq_single_of_sep_free _ (by decide) _ hfree]
    rfl
  have hspec2 : (specReframedStream reframe
        (processUpstreamChunks reframe "" chunks).2).map ProxyChunk.event
      = flushBufferedEvent reframe (processUpstreamChunks reframe "" chunks).2 := by
    unfold specReframedStream
    rw [hsingle, flushBufferedEvent_eq_spec]
    cases hfa : specSegmentEvent reframe (processUpstreamChunks reframe "" chunks).2 <;>
      simp [List.filterMap_cons, hfa]
  have key := processUpstreamChunks_spec reframe chunks ""
  rw [show ("" : String) ++ concatChunks chunks = concatChunks chunks from rfl] at key
  by_cases ht : jsTrim (processUpstreamChunks reframe "" chunks).2 ≠ ""
  · rw [if_pos ht, ← hspec2]
    exact key
  · rw [if_neg ht]
    push_neg at ht
    have h2 := (flushBufferedEvent_of_trim_empty reframe _ ht).2
    have h0 : specReframedStream reframe
        (processUpstreamChunks reframe "" chunks).2 = [] := by
      unfold specReframedStream
      rw [hsingle]
      simp [List.filterMap_cons, h2]
    rw [← key, h0]
    simp

end AgentL2
